import Mathlib

/-!
Verification development for the package-validation-tool repository.

The definitions below are shallow embeddings of the Python source under
`src/package_validation_tool/`.  Pure functions become Lean functions; the
stateful pieces (the operation cache, the matching loops) become explicit
state-passing functions.  Python floats are modelled as exact rationals,
SHA-256 digests as abstract strings produced by environment oracles, and
filesystem/network effects as oracle functions supplied per run.
-/

namespace PVT

/-- Embedding of enum `FileMatchState` from `matching/file_matching.py`. -/
inductive FileMatchState where
  | MATCHING
  | NO_COUNTERPART
  | DIFFERENT
deriving DecidableEq, Repr

/-- Python `state.name` for a `FileMatchState` member. -/
def FileMatchState.pyName : FileMatchState → String
  | .MATCHING => "MATCHING"
  | .NO_COUNTERPART => "NO_COUNTERPART"
  | .DIFFERENT => "DIFFERENT"

/-- File-matching statistics fields shared by `RemoteArchiveResult` and
`RemoteRepoResult` (mixin `FileMatchingStatsMixin` in `package/__init__.py`).
Dataclass defaults are all zero / empty.  Ratio fields are Python floats in
the source; they are modelled as exact rationals. -/
structure FileMatchStats where
  files_total : Nat := 0
  files_matched : Nat := 0
  files_different : Nat := 0
  files_no_counterpart : Nat := 0
  files_matched_rat : ℚ := 0
  files_different_rat : ℚ := 0
  files_no_counterpart_rat : ℚ := 0
  conflicts : List (String × String) := []
deriving DecidableEq, Repr

/-- One update step of the counting loop in `_collect_file_match_statistics`
(`package/rpm/source_package.py`): `files_total += 1` and
`files_* += int(state == ...)`; non-matching files are recorded in
`conflicts` (the relative-path computation is kept as the raw path here,
since path relativization does not affect any counted quantity). -/
def collectStatsStep (st : FileMatchStats) (p : String × FileMatchState) : FileMatchStats :=
  { st with
    files_total := st.files_total + 1
    files_matched := st.files_matched + (if p.2 = .MATCHING then 1 else 0)
    files_different := st.files_different + (if p.2 = .DIFFERENT then 1 else 0)
    files_no_counterpart := st.files_no_counterpart + (if p.2 = .NO_COUNTERPART then 1 else 0)
    conflicts :=
      if p.2 = .MATCHING then st.conflicts
      else st.conflicts ++ [(p.1, p.2.pyName)] }

/-- Embedding of `_collect_file_match_statistics`: iterate over the file
matcher's `state_dict`, counting totals, then compute the three ratios
(`count / files_total` when `files_total > 0`, else `0.0`).  The result
object enters the function with the dataclass defaults (all counters 0,
`conflicts` reset to empty). -/
def collectFileMatchStatistics (state_dict : List (String × FileMatchState)) :
    FileMatchStats :=
  let counted := state_dict.foldl collectStatsStep {}
  if 0 < counted.files_total then
    { counted with
      files_matched_rat := (counted.files_matched : ℚ) / (counted.files_total : ℚ)
      files_different_rat := (counted.files_different : ℚ) / (counted.files_total : ℚ)
      files_no_counterpart_rat := (counted.files_no_counterpart : ℚ) / (counted.files_total : ℚ) }
  else
    { counted with
      files_matched_rat := 0
      files_different_rat := 0
      files_no_counterpart_rat := 0 }

/-- Tally property of a statistics record: the three counts sum to the
total, and each ratio is exactly the count divided by the total, or
exactly `0` when the total is `0`. -/
def statsTallyOk (st : FileMatchStats) : Prop :=
  st.files_matched + st.files_different + st.files_no_counterpart = st.files_total
  ∧ (st.files_total = 0 →
      st.files_matched_rat = 0 ∧ st.files_different_rat = 0 ∧ st.files_no_counterpart_rat = 0)
  ∧ (st.files_total ≠ 0 →
      st.files_matched_rat = (st.files_matched : ℚ) / (st.files_total : ℚ)
      ∧ st.files_different_rat = (st.files_different : ℚ) / (st.files_total : ℚ)
      ∧ st.files_no_counterpart_rat = (st.files_no_counterpart : ℚ) / (st.files_total : ℚ))

lemma collectStatsStep_counts_sum (st : FileMatchStats) (p : String × FileMatchState)
    (h : st.files_matched + st.files_different + st.files_no_counterpart = st.files_total) :
    (collectStatsStep st p).files_matched + (collectStatsStep st p).files_different
      + (collectStatsStep st p).files_no_counterpart = (collectStatsStep st p).files_total := by
  cases p with
  | mk a s => cases s <;> simp [collectStatsStep] <;> omega

lemma collectStats_foldl_sum (l : List (String × FileMatchState)) (st : FileMatchStats)
    (h : st.files_matched + st.files_different + st.files_no_counterpart = st.files_total) :
    (l.foldl collectStatsStep st).files_matched + (l.foldl collectStatsStep st).files_different
      + (l.foldl collectStatsStep st).files_no_counterpart
      = (l.foldl collectStatsStep st).files_total := by
  induction l generalizing st with
  | nil => simpa using h
  | cons p l ih =>
      simp only [List.foldl_cons]
      exact ih _ (collectStatsStep_counts_sum st p h)

/-- C2: every statistics record produced by `_collect_file_match_statistics`
(and the dataclass-default record carried by result entries that never reach
the file matcher) satisfies the tally invariant: the three counts sum to
`files_total`, and each ratio is exactly the count divided by `files_total`,
or exactly `0` when `files_total = 0`. -/
theorem match_tally_invariant (state_dict : List (String × FileMatchState)) :
    statsTallyOk (collectFileMatchStatistics state_dict) ∧ statsTallyOk {} := by
  constructor
  · have hsum := collectStats_foldl_sum state_dict {} (by simp)
    unfold collectFileMatchStatistics statsTallyOk
    set counted := state_dict.foldl collectStatsStep {} with hc
    by_cases hpos : 0 < counted.files_total
    · simp only [hpos, if_true]
      refine ⟨hsum, fun h0 => absurd h0 (Nat.pos_iff_ne_zero.mp hpos), fun _ => ?_⟩
      refine ⟨?_, ?_, ?_⟩ <;> trivial
    · simp only [hpos, if_false]
      refine ⟨hsum, fun _ => ?_, fun hne => absurd (Nat.eq_zero_of_not_pos hpos) hne⟩
      refine ⟨?_, ?_, ?_⟩ <;> trivial
  · exact ⟨rfl, fun _ => ⟨rfl, rfl, rfl⟩, fun hne => absurd rfl hne⟩

/-- Witness for C2: the invariant evaluated on a concrete three-file state
dictionary. -/
theorem match_tally_invariant_witness :
    statsTallyOk (collectFileMatchStatistics
      [("a/x", .MATCHING), ("a/y", .DIFFERENT), ("a/z", .NO_COUNTERPART)]) := by
  have h := match_tally_invariant
    [("a/x", .MATCHING), ("a/y", .DIFFERENT), ("a/z", .NO_COUNTERPART)]
  exact h.1

/-! Embedding of the archive matcher (`RPMSourcepackage.match_remote_archives`
in `package/rpm/source_package.py`).  Network and filesystem effects —
`download_file`, `hash256sum` of the downloaded content,
`secure_unpack_archive`, and the file matcher run — are modelled as oracle
functions of the remote URL, fixed for one execution of the loop. -/

/-- Embedding of `RemoteArchiveSuggestion` (`package/suggesting_archives/__init__.py`).
Python `None` for a missing URL is modelled as the empty string (the source
only tests truthiness of `remote_archive`). -/
structure RemoteArchiveSuggestion where
  remote_archive : String
  spec_source : String := ""
  suggested_by : String := ""
  notes : String := ""
  confidence : ℚ := 0
deriving DecidableEq, Repr

/-- Embedding of `RemoteArchiveResult` (`package/__init__.py`), with file
statistics grouped in `stats`.  `contentHash` is a ghost field recording the
SHA-256 of the downloaded remote content for the entry (the value of
`hash256sum(downloaded_archive)` in the source); the Python dataclass does
not store it, but the dedup claim quantifies over it. -/
structure RemoteArchiveResult where
  remote_archive : String
  accessible : Bool := false
  matched : Bool := false
  stats : FileMatchStats := {}
  contentHash : Option String := none
deriving DecidableEq, Repr

/-- Embedding of `FileMatcher.left_is_matching`: all recorded states are
`MATCHING`. -/
def leftIsMatching (state_dict : List (String × FileMatchState)) : Bool :=
  state_dict.all (fun p => p.2 = .MATCHING)

/-- Oracle environment for matching one local archive against remote
archives: outcomes of the external effects as functions of the remote URL. -/
structure ArchiveMatchEnv where
  download : String → Bool
  hash256 : String → String
  extractLocalOk : Bool
  extractRemoteOk : String → Bool
  matcherOk : String → Bool
  stateDict : String → List (String × FileMatchState)

/-- Loop state of the per-local-archive suggestion loop: the result list
for this local archive and the two dedup sets (ordered lists, as growth
order is irrelevant for set membership). -/
structure ArchiveLoopState where
  results : List RemoteArchiveResult := []
  seen_remote_urls : List String := []
  seen_remote_hashsums : List String := []

/-- Final value of a fresh, non-duplicate entry once the download succeeded
with content hash `h`: the source marks it accessible, then extracts both
archives and runs the file matcher; any failure (`secure_unpack_archive`
returning false for either side, or an exception around the matcher) leaves
the entry with its defaults via `continue`.  When the matcher ran, the
statistics are collected and `matched` is set iff `left_is_matching`. -/
def finishArchiveEntry (env : ArchiveMatchEnv) (s : RemoteArchiveSuggestion)
    (h : String) : RemoteArchiveResult :=
  let base : RemoteArchiveResult :=
    { remote_archive := s.remote_archive, accessible := true, contentHash := some h }
  if env.extractLocalOk ∧ env.extractRemoteOk s.remote_archive
      ∧ env.matcherOk s.remote_archive then
    let sd := env.stateDict s.remote_archive
    { base with stats := collectFileMatchStatistics sd, matched := leftIsMatching sd }
  else base

/-- One iteration of the suggestion loop in `match_remote_archives`:
skip empty URLs and URL duplicates; otherwise pre-record a default result,
try to download; on success compute the content hash — a hash already seen
pops the pre-recorded result, otherwise the entry is completed by
`finishArchiveEntry`. -/
def matchArchiveStep (env : ArchiveMatchEnv) (st : ArchiveLoopState)
    (s : RemoteArchiveSuggestion) : ArchiveLoopState :=
  if s.remote_archive = "" then st
  else if s.remote_archive ∈ st.seen_remote_urls then st
  else
    let seenUrls := st.seen_remote_urls ++ [s.remote_archive]
    if env.download s.remote_archive then
      let h := env.hash256 s.remote_archive
      if h ∈ st.seen_remote_hashsums then
        -- `matched_archives[...].pop()`: the just-appended entry is removed again
        { st with seen_remote_urls := seenUrls }
      else
        { results := st.results ++ [finishArchiveEntry env s h]
          seen_remote_urls := seenUrls
          seen_remote_hashsums := st.seen_remote_hashsums ++ [h] }
    else
      { st with
        results := st.results ++ [{ remote_archive := s.remote_archive }]
        seen_remote_urls := seenUrls }

/-- Insertion step of a stable descending sort: `x` is placed after every
element with a strictly larger key and before the first element whose key
is at most `key x` (elements equal in key that preceded `x` in the original
list were inserted later into the result and stay in front of it). -/
def insertDescBy {α : Type} (key : α → ℚ) (x : α) : List α → List α
  | [] => [x]
  | y :: ys => if key x < key y then y :: insertDescBy key x ys else x :: y :: ys

/-- Stable descending sort by a rational key, the behaviour of Python
`sorted(..., key=..., reverse=True)` (descending, ties keep original
order). -/
def sortDescBy {α : Type} (key : α → ℚ) : List α → List α
  | [] => []
  | x :: xs => insertDescBy key x (sortDescBy key xs)

/-- Python `sorted(key=confidence, reverse=True)` over archive suggestions. -/
def sortByConfidenceDesc (l : List RemoteArchiveSuggestion) :
    List RemoteArchiveSuggestion :=
  sortDescBy (fun s => s.confidence) l

/-- One entry of the `local_archive_files` iteration: the basename of the
local archive, its SHA-256 (`hash256sum(local_archive_file)`), the
suggestion list from the `suggested_archives` dict (`none` when the
basename is not a key), and the effect oracles for this archive. -/
structure LocalArchiveCase where
  basename : String
  localHash : String
  suggestions : Option (List RemoteArchiveSuggestion)
  env : ArchiveMatchEnv

/-- Result list computed for one local archive: nothing when the basename
has no suggestions, otherwise the suggestion loop over the
confidence-sorted list. -/
def processLocalArchive (c : LocalArchiveCase) : List RemoteArchiveResult :=
  match c.suggestions with
  | none => []
  | some l => ((sortByConfidenceDesc l).foldl (matchArchiveStep c.env) {}).results

/-- Fields of the source-package state after `_initialize_package`:
whether initialization succeeded, and the truthiness of
`_srpm_file_path__`, `_spec` and `_package_source_path__` used for the
three state indicators of the result object. -/
structure SrpmInitState where
  initOk : Bool
  srpm_available : Bool
  spec_valid : Bool
  source_extractable : Bool
deriving DecidableEq, Repr

/-- Embedding of `PackageRemoteArchivesResult` (`package/__init__.py`);
dict fields become ordered association lists. -/
structure PackageRemoteArchivesResult where
  source_package_name : String
  matching : Bool
  results : List (String × List RemoteArchiveResult)
  unused_spec_sources : List String
  archive_hashes : List (String × String) := []
  srpm_available : Bool
  spec_valid : Bool
  source_extractable : Bool

/-- Embedding of `RPMSourcepackage.match_remote_archives`: failed
initialization returns an all-failure object with `matching = false`;
no local archives returns `matching = true` with empty results; otherwise
every local archive is processed and `matching` is the final loop
`for ...: if not any(archive.matched ...): matching = False`. -/
def matchRemoteArchives (pkgName : String) (ini : SrpmInitState)
    (localArchives : List LocalArchiveCase) (unused : List String) :
    PackageRemoteArchivesResult :=
  if ini.initOk = false then
    { source_package_name := pkgName, matching := false, results := []
      unused_spec_sources := unused, srpm_available := ini.srpm_available
      spec_valid := ini.spec_valid, source_extractable := ini.source_extractable }
  else
    match localArchives with
    | [] =>
        { source_package_name := pkgName, matching := true, results := []
          unused_spec_sources := unused, srpm_available := ini.srpm_available
          spec_valid := ini.spec_valid, source_extractable := ini.source_extractable }
    | _ =>
        let results := localArchives.map (fun c => (c.basename, processLocalArchive c))
        { source_package_name := pkgName
          matching := results.all (fun p => p.2.any (fun r => r.matched))
          results := results
          unused_spec_sources := unused
          archive_hashes := localArchives.map (fun c => (c.basename, c.localHash))
          srpm_available := ini.srpm_available
          spec_valid := ini.spec_valid
          source_extractable := ini.source_extractable }

/-! Embedding of the repository matcher (`RPMSourcepackage.match_remote_repos`
in `package/rpm/source_package.py`).  Cloning, checkout, the git tree hash,
the Autotools/Changelog runners and the file matcher are oracles of the
repo URL (the checkout reference is determined by the suggestion). -/

/-- Embedding of `RemoteRepoSuggestion` (`package/suggesting_repos/__init__.py`).
Python `None` for `commit_hash`/`tag` is modelled as the empty string (the
source only tests their truthiness). -/
structure RemoteRepoSuggestion where
  repo : String
  commit_hash : String := ""
  tag : String := ""
  spec_source : String := ""
  suggested_by : String := ""
  notes : String := ""
  confidence : ℚ := 0
deriving DecidableEq, Repr

/-- Embedding of `RemoteRepoResult` (`package/__init__.py`).  `treeHash` is
a ghost field recording `get_git_tree_hash(...)` for the entry (`none` for a
falsy/failed retrieval); the Python dataclass does not store it, but the
dedup claim quantifies over it. -/
structure RemoteRepoResult where
  remote_repo : String
  commit_hash : String
  tag : String
  accessible : Bool := false
  matched : Bool := false
  autotools_applied : Bool := false
  tools_versions : List (String × String) := []
  stats : FileMatchStats := {}
  treeHash : Option String := none
deriving DecidableEq, Repr

/-- Oracle environment for matching one local archive against remote
repositories. -/
structure RepoMatchEnv where
  localExtractOk : Bool
  cloneOk : String → Bool
  checkoutOk : String → String → Bool
  gitTreeHash : String → String → Option String
  applyAutotools : Bool
  autotoolsOk : String → Bool
  toolsVersions : String → List (String × String)
  matcherOk : String → Bool
  stateDict : String → List (String × FileMatchState)

/-- Loop state of the per-local-archive repo suggestion loop. -/
structure RepoLoopState where
  results : List RemoteRepoResult := []
  seen_remote_repos : List String := []
  seen_repo_tree_hashes : List String := []

/-- Final value of a fresh, non-duplicate repo entry after a successful
clone and checkout: accessible, with its tree hash recorded; if enabled the
Autotools runner sets `autotools_applied` and, when it does not raise, the
detected tool versions; the Changelog runner has no result fields; then
the file matcher runs (an exception leaves the entry via `continue`),
collecting statistics and setting `matched` iff `left_is_matching`. -/
def finishRepoEntry (env : RepoMatchEnv) (s : RemoteRepoSuggestion)
    (th : Option String) : RemoteRepoResult :=
  let base : RemoteRepoResult :=
    { remote_repo := s.repo, commit_hash := s.commit_hash, tag := s.tag
      accessible := true, treeHash := th }
  let base :=
    if env.applyAutotools then
      { base with
        autotools_applied := true
        tools_versions := if env.autotoolsOk s.repo then env.toolsVersions s.repo else [] }
    else base
  if env.matcherOk s.repo then
    let sd := env.stateDict s.repo
    { base with stats := collectFileMatchStatistics sd, matched := leftIsMatching sd }
  else base

/-- One iteration of the suggestion loop in `match_remote_repos`: a
suggestion without tag and commit hash is skipped before any result object
is created; URL duplicates are skipped; otherwise a default result is
pre-recorded, the repo is cloned bare and the tag (preferred) or commit is
checked out — failure of either leaves the default entry; on success the
entry is accessible, and a truthy tree hash already seen pops the
pre-recorded result, a fresh one is added to the seen set. -/
def matchRepoStep (env : RepoMatchEnv) (st : RepoLoopState)
    (s : RemoteRepoSuggestion) : RepoLoopState :=
  if s.tag = "" ∧ s.commit_hash = "" then st
  else if s.repo ∈ st.seen_remote_repos then st
  else
    let seen := st.seen_remote_repos ++ [s.repo]
    let ref := if s.tag ≠ "" then s.tag else s.commit_hash
    let r0 : RemoteRepoResult :=
      { remote_repo := s.repo, commit_hash := s.commit_hash, tag := s.tag }
    if env.cloneOk s.repo = false then
      { st with results := st.results ++ [r0], seen_remote_repos := seen }
    else if env.checkoutOk s.repo ref = false then
      { st with results := st.results ++ [r0], seen_remote_repos := seen }
    else
      match env.gitTreeHash s.repo ref with
      | some th =>
          if th ∈ st.seen_repo_tree_hashes then
            -- `matched_archives[...].pop()`: the just-appended entry is removed again
            { st with seen_remote_repos := seen }
          else
            { results := st.results ++ [finishRepoEntry env s (some th)]
              seen_remote_repos := seen
              seen_repo_tree_hashes := st.seen_repo_tree_hashes ++ [th] }
      | none =>
          { st with
            results := st.results ++ [finishRepoEntry env s none],
            seen_remote_repos := seen }

/-- Python `sorted(key=confidence, reverse=True)` over repo suggestions. -/
def sortReposByConfidenceDesc (l : List RemoteRepoSuggestion) :
    List RemoteRepoSuggestion :=
  sortDescBy (fun s => s.confidence) l

/-- One entry of the `local_archive_files` iteration of
`match_remote_repos`: the source skips the archive when
`suggested_repos.get(basename)` is falsy (missing key or empty list, both
modelled as `[]`) and when the local archive fails to extract. -/
structure LocalRepoCase where
  basename : String
  localHash : String
  suggestions : List RemoteRepoSuggestion
  env : RepoMatchEnv

/-- Result list computed for one local archive of `match_remote_repos`. -/
def processLocalRepoCase (c : LocalRepoCase) : List RemoteRepoResult :=
  match c.suggestions with
  | [] => []
  | _ =>
      if c.env.localExtractOk = false then []
      else ((sortReposByConfidenceDesc c.suggestions).foldl (matchRepoStep c.env) {}).results

/-- Embedding of `PackageRemoteReposResult` (`package/__init__.py`). -/
structure PackageRemoteReposResult where
  source_package_name : String
  matching : Bool
  results : List (String × List RemoteRepoResult)
  archive_hashes : List (String × String) := []
  srpm_available : Bool
  spec_valid : Bool
  source_extractable : Bool

/-- Embedding of `RPMSourcepackage.match_remote_repos`: the same shape as
`match_remote_archives` — failure object on failed initialization,
`matching = true` with empty results when there are no local archives,
otherwise the per-archive loop followed by the final any-matched fold. -/
def matchRemoteRepos (pkgName : String) (ini : SrpmInitState)
    (localArchives : List LocalRepoCase) : PackageRemoteReposResult :=
  if ini.initOk = false then
    { source_package_name := pkgName, matching := false, results := []
      srpm_available := ini.srpm_available, spec_valid := ini.spec_valid
      source_extractable := ini.source_extractable }
  else
    match localArchives with
    | [] =>
        { source_package_name := pkgName, matching := true, results := []
          srpm_available := ini.srpm_available, spec_valid := ini.spec_valid
          source_extractable := ini.source_extractable }
    | _ =>
        let results := localArchives.map (fun c => (c.basename, processLocalRepoCase c))
        { source_package_name := pkgName
          matching := results.all (fun p => p.2.any (fun r => r.matched))
          results := results
          archive_hashes := localArchives.map (fun c => (c.basename, c.localHash))
          srpm_available := ini.srpm_available
          spec_valid := ini.spec_valid
          source_extractable := ini.source_extractable }

/-- C1: for both `match_remote_archives` and `match_remote_repos`, the
returned `matching` flag is true iff every local archive's result list
contains an entry with `matched = true` (the result map has exactly one
entry per local archive, so this is vacuously true without local archives),
and on failed initialization the returned object has `matching = false`. -/
theorem matching_iff_every_archive_matched (pkgName : String) (ini : SrpmInitState)
    (archiveCases : List LocalArchiveCase) (unused : List String)
    (repoCases : List LocalRepoCase) :
    (ini.initOk = false →
      (matchRemoteArchives pkgName ini archiveCases unused).matching = false
      ∧ (matchRemoteRepos pkgName ini repoCases).matching = false)
    ∧ (ini.initOk = true →
      ((matchRemoteArchives pkgName ini archiveCases unused).results.map Prod.fst
          = archiveCases.map LocalArchiveCase.basename
        ∨ archiveCases = [])
      ∧ ((matchRemoteArchives pkgName ini archiveCases unused).matching = true
          ↔ ∀ p ∈ (matchRemoteArchives pkgName ini archiveCases unused).results,
              ∃ r ∈ p.2, r.matched = true)
      ∧ ((matchRemoteRepos pkgName ini repoCases).matching = true
          ↔ ∀ p ∈ (matchRemoteRepos pkgName ini repoCases).results,
              ∃ r ∈ p.2, r.matched = true)) := by
  constructor
  · intro hini
    constructor
    · simp [matchRemoteArchives, hini]
    · simp [matchRemoteRepos, hini]
  · intro hini
    refine ⟨?_, ?_, ?_⟩
    · cases archiveCases with
      | nil => exact Or.inr rfl
      | cons c cs =>
          left
          simp [matchRemoteArchives, hini, Function.comp]
    · cases archiveCases with
      | nil => simp [matchRemoteArchives, hini]
      | cons c cs =>
          simp [matchRemoteArchives, hini, List.all_eq_true, List.any_eq_true]
    · cases repoCases with
      | nil => simp [matchRemoteRepos, hini]
      | cons c cs =>
          simp [matchRemoteRepos, hini, List.all_eq_true, List.any_eq_true]

/-- Witness for C1: a concrete run with successful initialization, one
local archive whose single suggestion downloads, extracts and matches a
one-file tree, so `matching = true`. -/
theorem matching_iff_every_archive_matched_witness :
    (matchRemoteArchives "testrpm"
        { initOk := true, srpm_available := true, spec_valid := true,
          source_extractable := true }
        [{ basename := "testrpm-0.1.tar.gz", localHash := "aa",
           suggestions := some
             [{ remote_archive := "https://example.com/testrpm-0.1.tar.gz",
                confidence := 1 }],
           env := { download := fun _ => true, hash256 := fun _ => "hh",
                    extractLocalOk := true, extractRemoteOk := fun _ => true,
                    matcherOk := fun _ => true,
                    stateDict := fun _ => [("t/testfile", .MATCHING)] } }]
        []).matching = true := by
  have h := matching_iff_every_archive_matched "testrpm"
    { initOk := true, srpm_available := true, spec_valid := true,
      source_extractable := true }
    [{ basename := "testrpm-0.1.tar.gz", localHash := "aa",
       suggestions := some
         [{ remote_archive := "https://example.com/testrpm-0.1.tar.gz",
            confidence := 1 }],
       env := { download := fun _ => true, hash256 := fun _ => "hh",
                extractLocalOk := true, extractRemoteOk := fun _ => true,
                matcherOk := fun _ => true,
                stateDict := fun _ => [("t/testfile", .MATCHING)] } }]
    [] []
  exact ((h.2 rfl).2.1).mpr (by decide)

lemma finishArchiveEntry_remote_archive (env : ArchiveMatchEnv)
    (s : RemoteArchiveSuggestion) (h : String) :
    (finishArchiveEntry env s h).remote_archive = s.remote_archive := by
  unfold finishArchiveEntry
  split <;> rfl

lemma finishArchiveEntry_accessible (env : ArchiveMatchEnv)
    (s : RemoteArchiveSuggestion) (h : String) :
    (finishArchiveEntry env s h).accessible = true := by
  unfold finishArchiveEntry
  split <;> rfl

lemma finishArchiveEntry_contentHash (env : ArchiveMatchEnv)
    (s : RemoteArchiveSuggestion) (h : String) :
    (finishArchiveEntry env s h).contentHash = some h := by
  unfold finishArchiveEntry
  split <;> rfl

/-- Invariant of the per-local-archive suggestion loop: result URLs are
pairwise distinct and tracked in the URL dedup set, every accessible
entry's recorded content hash is tracked in the hash dedup set, and no two
accessible entries share a content hash. -/
structure ArchiveInv (st : ArchiveLoopState) : Prop where
  urls_nodup : (st.results.map (fun r => r.remote_archive)).Nodup
  urls_seen : ∀ r ∈ st.results, r.remote_archive ∈ st.seen_remote_urls
  hash_seen : ∀ r ∈ st.results, r.accessible = true →
    ∃ h, r.contentHash = some h ∧ h ∈ st.seen_remote_hashsums
  hash_pairwise : st.results.Pairwise
    (fun a b => a.accessible = true → b.accessible = true → a.contentHash ≠ b.contentHash)

lemma archiveInv_seen_extend (st : ArchiveLoopState) (inv : ArchiveInv st)
    (newUrls : List String)
    (hU : ∀ u ∈ st.seen_remote_urls, u ∈ newUrls) :
    ArchiveInv { st with seen_remote_urls := newUrls } := by
  refine ⟨inv.urls_nodup, ?_, inv.hash_seen, inv.hash_pairwise⟩
  intro r hr
  exact hU _ (inv.urls_seen r hr)

lemma archiveInv_snoc (st : ArchiveLoopState) (inv : ArchiveInv st)
    (e : RemoteArchiveResult) (newUrls newHashes : List String)
    (hHashSub : ∀ x ∈ st.seen_remote_hashsums, x ∈ newHashes)
    (hENew : e.remote_archive ∉ st.seen_remote_urls)
    (hEIn : e.remote_archive ∈ newUrls)
    (hUrlsSub : ∀ u ∈ st.seen_remote_urls, u ∈ newUrls)
    (hEHash : e.accessible = true →
      ∃ h, e.contentHash = some h ∧ h ∈ newHashes ∧ h ∉ st.seen_remote_hashsums) :
    ArchiveInv { results := st.results ++ [e], seen_remote_urls := newUrls,
                 seen_remote_hashsums := newHashes } := by
  have hnotmap : e.remote_archive ∉ st.results.map (fun r => r.remote_archive) := by
    intro hmem
    rcases List.mem_map.mp hmem with ⟨r, hr, hre⟩
    exact hENew (hre ▸ inv.urls_seen r hr)
  refine ⟨?_, ?_, ?_, ?_⟩
  · show ((st.results ++ [e]).map (fun r => r.remote_archive)).Nodup
    rw [List.map_append]
    refine (List.nodup_append).mpr ⟨inv.urls_nodup, List.nodup_singleton _, ?_⟩
    intro a ha hb
    have : a = e.remote_archive := by simpa using hb
    exact hnotmap (this ▸ ha)
  · intro r hr
    rcases List.mem_append.mp hr with hl | hsing
    · exact hUrlsSub _ (inv.urls_seen r hl)
    · rw [List.mem_singleton.mp hsing]
      exact hEIn
  · intro r hr hacc
    rcases List.mem_append.mp hr with hl | hsing
    · rcases inv.hash_seen r hl hacc with ⟨h, hh, hmem⟩
      exact ⟨h, hh, hHashSub _ hmem⟩
    · rw [List.mem_singleton.mp hsing] at hacc ⊢
      rcases hEHash hacc with ⟨h, hh, hmem, _⟩
      exact ⟨h, hh, hmem⟩
  · rw [List.pairwise_append]
    refine ⟨inv.hash_pairwise, List.pairwise_singleton _ _, ?_⟩
    intro a ha b hb hacca haccb
    rw [List.mem_singleton.mp hb] at haccb ⊢
    rcases inv.hash_seen a ha hacca with ⟨h1, hh1, hmem1⟩
    rcases hEHash haccb with ⟨h2, hh2, _, hnot2⟩
    rw [hh1, hh2]
    intro heq
    exact hnot2 (Option.some.inj heq ▸ hmem1)

lemma matchArchiveStep_inv (env : ArchiveMatchEnv) (st : ArchiveLoopState)
    (s : RemoteArchiveSuggestion) (inv : ArchiveInv st) :
    ArchiveInv (matchArchiveStep env st s) := by
  unfold matchArchiveStep
  by_cases h1 : s.remote_archive = ""
  · rwa [if_pos h1]
  · rw [if_neg h1]
    by_cases h2 : s.remote_archive ∈ st.seen_remote_urls
    · rwa [if_pos h2]
    · rw [if_neg h2]
      by_cases h3 : env.download s.remote_archive = true
      · rw [if_pos h3]
        by_cases h4 : env.hash256 s.remote_archive ∈ st.seen_remote_hashsums
        · rw [if_pos h4]
          exact archiveInv_seen_extend st inv _ (fun u hu => List.mem_append_left _ hu)
        · rw [if_neg h4]
          refine archiveInv_snoc st inv _ _ _
            (fun x hx => List.mem_append_left _ hx)
            ?_ ?_ (fun u hu => List.mem_append_left _ hu) ?_
          · rwa [finishArchiveEntry_remote_archive]
          · rw [finishArchiveEntry_remote_archive]
            exact List.mem_append_right _ (List.mem_singleton_self _)
          · intro _
            refine ⟨env.hash256 s.remote_archive, finishArchiveEntry_contentHash env s _, ?_, h4⟩
            exact List.mem_append_right _ (List.mem_singleton_self _)
      · rw [if_neg h3]
        refine archiveInv_snoc st inv _ _ _ (fun x hx => hx) h2 ?_
          (fun u hu => List.mem_append_left _ hu) ?_
        · exact List.mem_append_right _ (List.mem_singleton_self _)
        · intro hacc
          exact absurd hacc (by simp)

lemma archiveLoop_inv (env : ArchiveMatchEnv) (l : List RemoteArchiveSuggestion)
    (st : ArchiveLoopState) (inv : ArchiveInv st) :
    ArchiveInv (l.foldl (matchArchiveStep env) st) := by
  induction l generalizing st with
  | nil => exact inv
  | cons s l ih => exact ih _ (matchArchiveStep_inv env st s inv)

lemma finishRepoEntry_remote_repo (env : RepoMatchEnv) (s : RemoteRepoSuggestion)
    (th : Option String) : (finishRepoEntry env s th).remote_repo = s.repo := by
  unfold finishRepoEntry
  split_ifs <;> rfl

lemma finishRepoEntry_accessible (env : RepoMatchEnv) (s : RemoteRepoSuggestion)
    (th : Option String) : (finishRepoEntry env s th).accessible = true := by
  unfold finishRepoEntry
  split_ifs <;> rfl

lemma finishRepoEntry_treeHash (env : RepoMatchEnv) (s : RemoteRepoSuggestion)
    (th : Option String) : (finishRepoEntry env s th).treeHash = th := by
  unfold finishRepoEntry
  split_ifs <;> rfl

lemma finishRepoEntry_tag (env : RepoMatchEnv) (s : RemoteRepoSuggestion)
    (th : Option String) : (finishRepoEntry env s th).tag = s.tag := by
  unfold finishRepoEntry
  split_ifs <;> rfl

lemma finishRepoEntry_commit_hash (env : RepoMatchEnv) (s : RemoteRepoSuggestion)
    (th : Option String) : (finishRepoEntry env s th).commit_hash = s.commit_hash := by
  unfold finishRepoEntry
  split_ifs <;> rfl

/-- Invariant of the per-local-archive repo loop: result URLs are pairwise
distinct and tracked in the URL dedup set, every recorded tree hash is
tracked in the tree-hash dedup set, and no two accessible entries share a
recorded tree hash. -/
structure RepoInv (st : RepoLoopState) : Prop where
  urls_nodup : (st.results.map (fun r => r.remote_repo)).Nodup
  urls_seen : ∀ r ∈ st.results, r.remote_repo ∈ st.seen_remote_repos
  hash_seen : ∀ r ∈ st.results, ∀ h, r.treeHash = some h → h ∈ st.seen_repo_tree_hashes
  hash_pairwise : st.results.Pairwise
    (fun a b => a.accessible = true → b.accessible = true →
      ∀ h, a.treeHash = some h → ¬ b.treeHash = some h)

lemma repoInv_seen_extend (st : RepoLoopState) (inv : RepoInv st)
    (newUrls : List String)
    (hU : ∀ u ∈ st.seen_remote_repos, u ∈ newUrls) :
    RepoInv { st with seen_remote_repos := newUrls } := by
  refine ⟨inv.urls_nodup, ?_, inv.hash_seen, inv.hash_pairwise⟩
  intro r hr
  exact hU _ (inv.urls_seen r hr)

lemma repoInv_snoc (st : RepoLoopState) (inv : RepoInv st)
    (e : RemoteRepoResult) (newUrls newHashes : List String)
    (hHashSub : ∀ x ∈ st.seen_repo_tree_hashes, x ∈ newHashes)
    (hENew : e.remote_repo ∉ st.seen_remote_repos)
    (hEIn : e.remote_repo ∈ newUrls)
    (hUrlsSub : ∀ u ∈ st.seen_remote_repos, u ∈ newUrls)
    (hEHash : ∀ h, e.treeHash = some h → h ∈ newHashes ∧ h ∉ st.seen_repo_tree_hashes) :
    RepoInv { results := st.results ++ [e], seen_remote_repos := newUrls,
              seen_repo_tree_hashes := newHashes } := by
  have hnotmap : e.remote_repo ∉ st.results.map (fun r => r.remote_repo) := by
    intro hmem
    rcases List.mem_map.mp hmem with ⟨r, hr, hre⟩
    exact hENew (hre ▸ inv.urls_seen r hr)
  refine ⟨?_, ?_, ?_, ?_⟩
  · show ((st.results ++ [e]).map (fun r => r.remote_repo)).Nodup
    rw [List.map_append]
    refine (List.nodup_append).mpr ⟨inv.urls_nodup, List.nodup_singleton _, ?_⟩
    intro a ha hb
    have : a = e.remote_repo := by simpa using hb
    exact hnotmap (this ▸ ha)
  · intro r hr
    rcases List.mem_append.mp hr with hl | hsing
    · exact hUrlsSub _ (inv.urls_seen r hl)
    · rw [List.mem_singleton.mp hsing]
      exact hEIn
  · intro r hr h hth
    rcases List.mem_append.mp hr with hl | hsing
    · exact hHashSub _ (inv.hash_seen r hl h hth)
    · rw [List.mem_singleton.mp hsing] at hth
      exact (hEHash h hth).1
  · rw [List.pairwise_append]
    refine ⟨inv.hash_pairwise, List.pairwise_singleton _ _, ?_⟩
    intro a ha b hb _ _ h hah
    rw [List.mem_singleton.mp hb]
    intro hbh
    exact (hEHash h hbh).2 (inv.hash_seen a ha h hah)

lemma matchRepoStep_inv (env : RepoMatchEnv) (st : RepoLoopState)
    (s : RemoteRepoSuggestion) (inv : RepoInv st) :
    RepoInv (matchRepoStep env st s) := by
  unfold matchRepoStep
  by_cases h1 : s.tag = "" ∧ s.commit_hash = ""
  · rwa [if_pos h1]
  · rw [if_neg h1]
    by_cases h2 : s.repo ∈ st.seen_remote_repos
    · rwa [if_pos h2]
    · rw [if_neg h2]
      by_cases h3 : env.cloneOk s.repo = false
      · rw [if_pos h3]
        refine repoInv_snoc st inv _ _ _ (fun x hx => hx) h2 ?_
          (fun u hu => List.mem_append_left _ hu) ?_
        · exact List.mem_append_right _ (List.mem_singleton_self _)
        · intro h hth
          exact absurd hth (by simp)
      · rw [if_neg h3]
        by_cases h4 : env.checkoutOk s.repo (if s.tag ≠ "" then s.tag else s.commit_hash) = false
        · rw [if_pos h4]
          refine repoInv_snoc st inv _ _ _ (fun x hx => hx) h2 ?_
            (fun u hu => List.mem_append_left _ hu) ?_
          · exact List.mem_append_right _ (List.mem_singleton_self _)
          · intro h hth
            exact absurd hth (by simp)
        · rw [if_neg h4]
          cases hth : env.gitTreeHash s.repo (if s.tag ≠ "" then s.tag else s.commit_hash) with
          | some th =>
              dsimp only
              by_cases h5 : th ∈ st.seen_repo_tree_hashes
              · rw [if_pos h5]
                exact repoInv_seen_extend st inv _ (fun u hu => List.mem_append_left _ hu)
              · rw [if_neg h5]
                refine repoInv_snoc st inv _ _ _
                  (fun x hx => List.mem_append_left _ hx) ?_ ?_
                  (fun u hu => List.mem_append_left _ hu) ?_
                · rwa [finishRepoEntry_remote_repo]
                · rw [finishRepoEntry_remote_repo]
                  exact List.mem_append_right _ (List.mem_singleton_self _)
                · intro h hsome
                  rw [finishRepoEntry_treeHash] at hsome
                  rw [Option.some.inj hsome] at h5 ⊢
                  exact ⟨List.mem_append_right _ (List.mem_singleton_self _), h5⟩
          | none =>
              dsimp only
              refine repoInv_snoc st inv _ _ _ (fun x hx => hx) ?_ ?_
                (fun u hu => List.mem_append_left _ hu) ?_
              · rwa [finishRepoEntry_remote_repo]
              · rw [finishRepoEntry_remote_repo]
                exact List.mem_append_right _ (List.mem_singleton_self _)
              · intro h hsome
                rw [finishRepoEntry_treeHash] at hsome
                exact absurd hsome (by simp)

lemma repoLoop_inv (env : RepoMatchEnv) (l : List RemoteRepoSuggestion)
    (st : RepoLoopState) (inv : RepoInv st) :
    RepoInv (l.foldl (matchRepoStep env) st) := by
  induction l generalizing st with
  | nil => exact inv
  | cons s l ih => exact ih _ (matchRepoStep_inv env st s inv)

/-- C5: for every local archive, the final result list of the archive
matcher (resp. repo matcher) contains no two entries with the same remote
URL, and no two accessible entries with the same downloaded-content SHA-256
(resp. the same recorded git tree hash); moreover a candidate whose content
hash (resp. truthy tree hash) was already seen has its pre-recorded result
popped, leaving the result list unchanged. -/
theorem result_list_dedup (c : LocalArchiveCase) (rc : LocalRepoCase)
    (env : ArchiveMatchEnv) (st : ArchiveLoopState) (s : RemoteArchiveSuggestion)
    (renv : RepoMatchEnv) (rst : RepoLoopState) (rs : RemoteRepoSuggestion) :
    (((processLocalArchive c).map (fun r => r.remote_archive)).Nodup
      ∧ (processLocalArchive c).Pairwise
          (fun a b => a.accessible = true → b.accessible = true →
            a.contentHash ≠ b.contentHash))
    ∧ (((processLocalRepoCase rc).map (fun r => r.remote_repo)).Nodup
      ∧ (processLocalRepoCase rc).Pairwise
          (fun a b => a.accessible = true → b.accessible = true →
            ∀ h, a.treeHash = some h → ¬ b.treeHash = some h))
    ∧ (s.remote_archive ≠ "" → s.remote_archive ∉ st.seen_remote_urls →
        env.download s.remote_archive = true →
        env.hash256 s.remote_archive ∈ st.seen_remote_hashsums →
        (matchArchiveStep env st s).results = st.results)
    ∧ (¬(rs.tag = "" ∧ rs.commit_hash = "") → rs.repo ∉ rst.seen_remote_repos →
        renv.cloneOk rs.repo = true →
        renv.checkoutOk rs.repo (if rs.tag ≠ "" then rs.tag else rs.commit_hash) = true →
        ∀ th, renv.gitTreeHash rs.repo (if rs.tag ≠ "" then rs.tag else rs.commit_hash) = some th →
          th ∈ rst.seen_repo_tree_hashes →
          (matchRepoStep renv rst rs).results = rst.results) := by
  refine ⟨?_, ?_, ?_, ?_⟩
  · have hinv : ∀ l : List RemoteArchiveSuggestion,
        ArchiveInv ((l.foldl (matchArchiveStep c.env) {})) := by
      intro l
      exact archiveLoop_inv c.env l {} ⟨List.nodup_nil, by simp, by simp, List.Pairwise.nil⟩
    cases hc : c.suggestions with
    | none => simp [processLocalArchive, hc]
    | some l =>
        have h := hinv (sortByConfidenceDesc l)
        exact ⟨by simpa [processLocalArchive, hc] using h.urls_nodup,
          by simpa [processLocalArchive, hc] using h.hash_pairwise⟩
  · have hinv : ∀ l : List RemoteRepoSuggestion,
        RepoInv ((l.foldl (matchRepoStep rc.env) {})) := by
      intro l
      exact repoLoop_inv rc.env l {} ⟨List.nodup_nil, by simp, by simp, List.Pairwise.nil⟩
    cases hc : rc.suggestions with
    | nil => simp [processLocalRepoCase, hc]
    | cons a as =>
        by_cases hec : rc.env.localExtractOk = false
        · simp [processLocalRepoCase, hc, hec]
        · have h := hinv (sortReposByConfidenceDesc (a :: as))
          constructor
          · simpa [processLocalRepoCase, hc, hec] using h.urls_nodup
          · simpa [processLocalRepoCase, hc, hec] using h.hash_pairwise
  · intro h1 h2 h3 h4
    unfold matchArchiveStep
    rw [if_neg h1, if_neg h2, if_pos h3, if_pos h4]
  · intro h1 h2 h3 h4 th hth hmem
    unfold matchRepoStep
    rw [if_neg h1, if_neg h2, if_neg (by rw [h3]; simp), if_neg (by rw [h4]; simp), hth]
    dsimp only
    rw [if_pos hmem]

/-- Witness for C5: a concrete archive matcher run with two suggestions
whose downloads have identical content — one result entry survives — and a
concrete repo-step pop on an already-seen tree hash. -/
theorem result_list_dedup_witness :
    ((matchArchiveStep
        { download := fun _ => true, hash256 := fun _ => "same",
          extractLocalOk := true, extractRemoteOk := fun _ => true,
          matcherOk := fun _ => true, stateDict := fun _ => [] }
        { results := [], seen_remote_urls := [], seen_remote_hashsums := ["same"] }
        { remote_archive := "https://b.example/x.tar.gz", confidence := 1 }).results = [])
    ∧ ((matchRepoStep
        { localExtractOk := true, cloneOk := fun _ => true,
          checkoutOk := fun _ _ => true, gitTreeHash := fun _ _ => some "tree",
          applyAutotools := false, autotoolsOk := fun _ => true,
          toolsVersions := fun _ => [], matcherOk := fun _ => true,
          stateDict := fun _ => [] }
        { results := [], seen_remote_repos := [], seen_repo_tree_hashes := ["tree"] }
        { repo := "https://g.example/r", tag := "v1" }).results = []) := by
  have h := result_list_dedup
    { basename := "x.tar.gz", localHash := "l", suggestions := none,
      env := { download := fun _ => true, hash256 := fun _ => "same",
               extractLocalOk := true, extractRemoteOk := fun _ => true,
               matcherOk := fun _ => true, stateDict := fun _ => [] } }
    { basename := "x.tar.gz", localHash := "l", suggestions := [],
      env := { localExtractOk := true, cloneOk := fun _ => true,
               checkoutOk := fun _ _ => true, gitTreeHash := fun _ _ => some "tree",
               applyAutotools := false, autotoolsOk := fun _ => true,
               toolsVersions := fun _ => [], matcherOk := fun _ => true,
               stateDict := fun _ => [] } }
    { download := fun _ => true, hash256 := fun _ => "same",
      extractLocalOk := true, extractRemoteOk := fun _ => true,
      matcherOk := fun _ => true, stateDict := fun _ => [] }
    { results := [], seen_remote_urls := [], seen_remote_hashsums := ["same"] }
    { remote_archive := "https://b.example/x.tar.gz", confidence := 1 }
    { localExtractOk := true, cloneOk := fun _ => true,
      checkoutOk := fun _ _ => true, gitTreeHash := fun _ _ => some "tree",
      applyAutotools := false, autotoolsOk := fun _ => true,
      toolsVersions := fun _ => [], matcherOk := fun _ => true,
      stateDict := fun _ => [] }
    { results := [], seen_remote_repos := [], seen_repo_tree_hashes := ["tree"] }
    { repo := "https://g.example/r", tag := "v1" }
  refine ⟨h.2.2.1 (by decide) (by simp) rfl (by simp), ?_⟩
  exact h.2.2.2 (by simp) (by simp) rfl rfl "tree" rfl (by simp)

lemma matchRepoStep_results_cases (env : RepoMatchEnv) (st : RepoLoopState)
    (s : RemoteRepoSuggestion) :
    (matchRepoStep env st s).results = st.results
    ∨ (¬(s.tag = "" ∧ s.commit_hash = "")
      ∧ ∃ e, (matchRepoStep env st s).results = st.results ++ [e]
          ∧ e.tag = s.tag ∧ e.commit_hash = s.commit_hash ∧ e.remote_repo = s.repo) := by
  unfold matchRepoStep
  by_cases h1 : s.tag = "" ∧ s.commit_hash = ""
  · rw [if_pos h1]
    exact Or.inl rfl
  · rw [if_neg h1]
    by_cases h2 : s.repo ∈ st.seen_remote_repos
    · rw [if_pos h2]
      exact Or.inl rfl
    · rw [if_neg h2]
      by_cases h3 : env.cloneOk s.repo = false
      · rw [if_pos h3]
        exact Or.inr ⟨h1, _, rfl, rfl, rfl, rfl⟩
      · rw [if_neg h3]
        by_cases h4 : env.checkoutOk s.repo (if s.tag ≠ "" then s.tag else s.commit_hash) = false
        · rw [if_pos h4]
          exact Or.inr ⟨h1, _, rfl, rfl, rfl, rfl⟩
        · rw [if_neg h4]
          cases hth : env.gitTreeHash s.repo (if s.tag ≠ "" then s.tag else s.commit_hash) with
          | some th =>
              dsimp only
              by_cases h5 : th ∈ st.seen_repo_tree_hashes
              · rw [if_pos h5]
                exact Or.inl rfl
              · rw [if_neg h5]
                exact Or.inr ⟨h1, _, rfl, finishRepoEntry_tag env s _,
                  finishRepoEntry_commit_hash env s _, finishRepoEntry_remote_repo env s _⟩
          | none =>
              dsimp only
              exact Or.inr ⟨h1, _, rfl, finishRepoEntry_tag env s _,
                finishRepoEntry_commit_hash env s _, finishRepoEntry_remote_repo env s _⟩

lemma repoFold_tagcommit (env : RepoMatchEnv) (l : List RemoteRepoSuggestion)
    (st : RepoLoopState)
    (h : ∀ r ∈ st.results, r.tag ≠ "" ∨ r.commit_hash ≠ "") :
    ∀ r ∈ (l.foldl (matchRepoStep env) st).results, r.tag ≠ "" ∨ r.commit_hash ≠ "" := by
  induction l generalizing st with
  | nil => exact h
  | cons s l ih =>
      rw [List.foldl_cons]
      refine ih (matchRepoStep env st s) ?_
      rcases matchRepoStep_results_cases env st s with hcase | ⟨hg, e, he, ht, hc, _⟩
      · rw [hcase]
        exact h
      · rw [he]
        intro r hr
        rcases List.mem_append.mp hr with hl | hsing
        · exact h r hl
        · rw [List.mem_singleton.mp hsing, ht, hc]
          by_cases htag : s.tag = ""
          · right
            intro hcm
            exact hg ⟨htag, hcm⟩
          · left
            exact htag

/-- C9: in the repo matching loop, a suggestion whose tag and commit hash
are both empty is skipped before any result object is created: the fold
over a suggestion list equals the fold over the list with such suggestions
filtered out, and every entry in a final result list carries a non-empty
tag or commit hash; by contrast a candidate with a usable reference whose
clone fails leaves a pre-recorded entry with `accessible = matched =
false`. -/
theorem empty_ref_suggestion_skipped (env : RepoMatchEnv)
    (l : List RemoteRepoSuggestion) (st : RepoLoopState)
    (s : RemoteRepoSuggestion) :
    (l.foldl (matchRepoStep env) st
      = (l.filter (fun x => !(x.tag == "" && x.commit_hash == ""))).foldl
          (matchRepoStep env) st)
    ∧ (∀ r ∈ (l.foldl (matchRepoStep env) ({} : RepoLoopState)).results,
        r.tag ≠ "" ∨ r.commit_hash ≠ "")
    ∧ (¬(s.tag = "" ∧ s.commit_hash = "") → s.repo ∉ st.seen_remote_repos →
        env.cloneOk s.repo = false →
        (matchRepoStep env st s).results
          = st.results
            ++ [{ remote_repo := s.repo, commit_hash := s.commit_hash, tag := s.tag }]
        ∧ ({ remote_repo := s.repo, commit_hash := s.commit_hash,
             tag := s.tag } : RemoteRepoResult).accessible = false
        ∧ ({ remote_repo := s.repo, commit_hash := s.commit_hash,
             tag := s.tag } : RemoteRepoResult).matched = false) := by
  refine ⟨?_, ?_, ?_⟩
  · induction l generalizing st with
    | nil => rfl
    | cons x xs ih =>
        by_cases hx : x.tag = "" ∧ x.commit_hash = ""
        · have hb : (!(x.tag == "" && x.commit_hash == "")) = false := by
            simp [hx.1, hx.2]
          rw [List.foldl_cons, List.filter_cons, hb]
          have hskip : matchRepoStep env st x = st := by
            unfold matchRepoStep
            rw [if_pos hx]
          rw [hskip]
          simpa using ih st
        · have hb : (!(x.tag == "" && x.commit_hash == "")) = true := by
            rcases not_and_or.mp hx with h | h <;> simp [h]
          rw [List.foldl_cons, List.filter_cons, hb]
          simpa using ih (matchRepoStep env st x)
  · exact repoFold_tagcommit env l {} (by simp)
  · intro h1 h2 h3
    unfold matchRepoStep
    rw [if_neg h1, if_neg h2, if_pos h3]
    exact ⟨rfl, rfl, rfl⟩

/-- Witness for C9: a two-suggestion concrete list where the empty-reference
suggestion leaves no trace, plus a concrete clone-failure entry. -/
theorem empty_ref_suggestion_skipped_witness :
    ([({ repo := "https://g.example/r" } : RemoteRepoSuggestion),
      { repo := "https://g.example/q", tag := "v1" }].foldl
        (matchRepoStep
          { localExtractOk := true, cloneOk := fun _ => false,
            checkoutOk := fun _ _ => true, gitTreeHash := fun _ _ => none,
            applyAutotools := false, autotoolsOk := fun _ => true,
            toolsVersions := fun _ => [], matcherOk := fun _ => true,
            stateDict := fun _ => [] })
        { results := [], seen_remote_repos := [], seen_repo_tree_hashes := [] }
      = [({ repo := "https://g.example/q", tag := "v1" } : RemoteRepoSuggestion)].foldl
          (matchRepoStep
            { localExtractOk := true, cloneOk := fun _ => false,
              checkoutOk := fun _ _ => true, gitTreeHash := fun _ _ => none,
              applyAutotools := false, autotoolsOk := fun _ => true,
              toolsVersions := fun _ => [], matcherOk := fun _ => true,
              stateDict := fun _ => [] })
          { results := [], seen_remote_repos := [], seen_repo_tree_hashes := [] })
    ∧ ((matchRepoStep
          { localExtractOk := true, cloneOk := fun _ => false,
            checkoutOk := fun _ _ => true, gitTreeHash := fun _ _ => none,
            applyAutotools := false, autotoolsOk := fun _ => true,
            toolsVersions := fun _ => [], matcherOk := fun _ => true,
            stateDict := fun _ => [] }
          { results := [], seen_remote_repos := [], seen_repo_tree_hashes := [] }
          { repo := "https://g.example/q", tag := "v1" }).results
        = [{ remote_repo := "https://g.example/q", commit_hash := "", tag := "v1" }]) := by
  have h := empty_ref_suggestion_skipped
    { localExtractOk := true, cloneOk := fun _ => false,
      checkoutOk := fun _ _ => true, gitTreeHash := fun _ _ => none,
      applyAutotools := false, autotoolsOk := fun _ => true,
      toolsVersions := fun _ => [], matcherOk := fun _ => true,
      stateDict := fun _ => [] }
    [({ repo := "https://g.example/r" } : RemoteRepoSuggestion),
      { repo := "https://g.example/q", tag := "v1" }]
    { results := [], seen_remote_repos := [], seen_repo_tree_hashes := [] }
    { repo := "https://g.example/q", tag := "v1" }
  constructor
  · have hfil := h.1
    simpa using hfil
  · exact (h.2.2 (by simp) (by simp) rfl).1

/-! Embedding of the operation cache (`operation_cache.py`).  A cached
value of type `V` models the JSON-dict result of the wrapped function (for
dict results `return_type_to_json_dict` / `data_to_return_type` round-trip
identically, so encode/decode is the identity).  The readable SHA-256 key
of `generate_hash_metadata` is modelled by the joined key parts themselves
(deterministic in the argument representations; SHA-256 collision freedom
is assumed).  The disk is an association list from the cache-file path to
its contents. -/

/-- Contents of a cache file on disk: a well-formed JSON entry with its
stored metadata, or a corrupt file (truncated by a failed `json.dump`, or
otherwise unreadable — `json.loads` raises on it). -/
inductive CacheFile (V : Type) where
  | good (metadata : String × String × String) (result : V)
  | corrupt
deriving DecidableEq, Repr

/-- Embedding of `generate_hash_metadata`: a deterministic key derived from
the function name and the `obj_to_str` representations of `args` and
`kwargs`, plus the metadata dict `{function, args, kwargs}`. -/
def generate_hash_metadata (func_name argsRepr kwargsRepr : String) :
    String × (String × String × String) :=
  (func_name ++ "_" ++ argsRepr ++ "_" ++ kwargsRepr,
    (func_name, argsRepr, kwargsRepr))

/-- Lookup of a cache file by path (`os.path.exists` + read). -/
def filesLookup {V : Type} (files : List (String × CacheFile V)) (k : String) :
    Option (CacheFile V) :=
  match files.find? (fun p => p.1 == k) with
  | some p => some p.2
  | none => none

/-- Overwriting write of a cache file (`open(cache_file, "w")`); the
position of the entry in the association list is immaterial. -/
def filesSet {V : Type} (files : List (String × CacheFile V)) (k : String)
    (v : CacheFile V) : List (String × CacheFile V) :=
  (k, v) :: files.filter (fun p => p.1 != k)

/-- Instance state of `OperationCache`: configuration and statistics
counters, together with the on-disk cache contents. -/
structure OperationCacheState (V : Type) where
  cache_directory : Option String
  write_only : Bool
  calls : Nat := 0
  cached_results : Nat := 0
  cached_hash_errors : Nat := 0
  cached_retrieve_errors : Nat := 0
  cached_store_errors : Nat := 0
  files : List (String × CacheFile V) := []
deriving DecidableEq, Repr

/-- Error injections for one `call`: an exception while generating the
cache key / creating the function directory, while loading an existing
cache file, or while dumping the result (which leaves a truncated file). -/
structure CallEffects where
  hashFail : Bool
  retrieveFail : Bool
  storeFail : Bool
deriving DecidableEq, Repr

/-- Outcome of one `OperationCache.call`: the returned value, the new
state, and whether the wrapped function was executed (ghost flag). -/
structure CallOutcome (V : Type) where
  ret : V
  st : OperationCacheState V
  executed : Bool
deriving Repr

/-- Execute-and-store tail of `OperationCache.call`: run the function,
then try to store the result.  A store exception sets
`_cached_store_errors = 0` (the source assigns instead of incrementing)
and calls `shutil.rmtree(cache_file, ignore_errors=True)` on a *file*
path, which raises `NotADirectoryError` internally and removes nothing, so
the truncated file stays on disk. -/
def callExecuteStore {V : Type} (st : OperationCacheState V) (fx : CallEffects)
    (keyOpt : Option String) (meta : String × String × String) (f_result : V) :
    CallOutcome V :=
  match keyOpt with
  | none => { ret := f_result, st := st, executed := true }
  | some k =>
      if fx.storeFail then
        { ret := f_result
          executed := true
          st := { st with cached_store_errors := 0, files := filesSet st.files k .corrupt } }
      else
        { ret := f_result
          executed := true
          st := { st with files := filesSet st.files k (.good meta f_result) } }

/-- Embedding of `OperationCache.call` for a pure function whose execution
yields `f_result`: count the call; without a cache directory just execute;
otherwise derive key and metadata (a hash error counts and disables
caching for this call); in normal mode an existing file counts a cached
result and is loaded — a load exception or corrupt file sets
`_cached_retrieve_errors = 0` (the source assigns instead of
incrementing), mismatching stored metadata is treated as a miss — and a
matching entry is returned without executing the function; otherwise the
function is executed and the result stored. -/
def OperationCache.call {V : Type} (st : OperationCacheState V) (fx : CallEffects)
    (func_name argsRepr kwargsRepr : String) (f_result : V) : CallOutcome V :=
  let st := { st with calls := st.calls + 1 }
  match st.cache_directory with
  | none => { ret := f_result, st := st, executed := true }
  | some _ =>
      let km := generate_hash_metadata func_name argsRepr kwargsRepr
      let keyOpt : Option String := if fx.hashFail then none else some km.1
      let st := if fx.hashFail
        then { st with cached_hash_errors := st.cached_hash_errors + 1 }
        else st
      if st.write_only then callExecuteStore st fx keyOpt km.2 f_result
      else
        match keyOpt with
        | none => callExecuteStore st fx keyOpt km.2 f_result
        | some k =>
            match filesLookup st.files k with
            | none => callExecuteStore st fx keyOpt km.2 f_result
            | some file =>
                let st := { st with cached_results := st.cached_results + 1 }
                if fx.retrieveFail then
                  callExecuteStore { st with cached_retrieve_errors := 0 }
                    fx keyOpt km.2 f_result
                else
                  match file with
                  | .corrupt =>
                      callExecuteStore { st with cached_retrieve_errors := 0 }
                        fx keyOpt km.2 f_result
                  | .good m r =>
                      if m = km.2 then { ret := r, st := st, executed := false }
                      else callExecuteStore st fx keyOpt km.2 f_result

/-- Error-free effects for a `call`. -/
def noCallErrors : CallEffects :=
  { hashFail := false, retrieveFail := false, storeFail := false }

lemma filesLookup_set {V : Type} (files : List (String × CacheFile V)) (k : String)
    (v : CacheFile V) : filesLookup (filesSet files k v) k = some v := by
  simp [filesLookup, filesSet]

/-- C3: with a cache directory configured and the cache in normal mode, a
first error-free `call` on a key not yet on disk executes the function and
stores its result, and a second `call` with identical function and argument
representations returns the stored result without executing the function;
in write-only mode every `call` executes the function and overwrites the
stored entry. -/
theorem cache_idempotence {V : Type} [DecidableEq V]
    (st0 stw : OperationCacheState V) (d dw fn a kw : String) (res resw : V)
    (hdir : st0.cache_directory = some d)
    (hmode : st0.write_only = false)
    (hfresh : filesLookup st0.files (generate_hash_metadata fn a kw).1 = none)
    (hdirw : stw.cache_directory = some dw)
    (hmodew : stw.write_only = true) :
    ((OperationCache.call st0 noCallErrors fn a kw res).executed = true
      ∧ filesLookup (OperationCache.call st0 noCallErrors fn a kw res).st.files
          (generate_hash_metadata fn a kw).1
        = some (.good (generate_hash_metadata fn a kw).2 res))
    ∧ ((OperationCache.call
          (OperationCache.call st0 noCallErrors fn a kw res).st
          noCallErrors fn a kw res).ret = res
      ∧ (OperationCache.call
          (OperationCache.call st0 noCallErrors fn a kw res).st
          noCallErrors fn a kw res).executed = false)
    ∧ ((OperationCache.call stw noCallErrors fn a kw resw).executed = true
      ∧ filesLookup (OperationCache.call stw noCallErrors fn a kw resw).st.files
          (generate_hash_metadata fn a kw).1
        = some (.good (generate_hash_metadata fn a kw).2 resw)) := by
  have hc1 : OperationCache.call st0 noCallErrors fn a kw res
      = { ret := res, executed := true,
          st := { st0 with
                  calls := st0.calls + 1,
                  files := filesSet st0.files (generate_hash_metadata fn a kw).1
                    (.good (generate_hash_metadata fn a kw).2 res) } } := by
    unfold OperationCache.call
    simp [noCallErrors, hdir, hmode, hfresh, callExecuteStore]
  refine ⟨⟨?_, ?_⟩, ⟨?_, ?_⟩, ?_, ?_⟩
  · rw [hc1]
  · rw [hc1]
    exact filesLookup_set _ _ _
  · rw [hc1]
    unfold OperationCache.call
    simp [noCallErrors, hdir, hmode, filesLookup_set]
  · rw [hc1]
    unfold OperationCache.call
    simp [noCallErrors, hdir, hmode, filesLookup_set]
  · unfold OperationCache.call
    simp [noCallErrors, hdirw, hmodew, callExecuteStore]
  · unfold OperationCache.call
    simp [noCallErrors, hdirw, hmodew, callExecuteStore, filesLookup_set]

/-- Witness for C3: a concrete two-call run over `Nat` results in normal
mode and one write-only call overwriting an existing entry. -/
theorem cache_idempotence_witness :
    ((OperationCache.call
        (OperationCache.call
          ({ cache_directory := some "/cache", write_only := false }
            : OperationCacheState Nat)
          noCallErrors "f" "args1" "kw" 42).st
        noCallErrors "f" "args1" "kw" 42).ret = 42
    ∧ (OperationCache.call
        (OperationCache.call
          ({ cache_directory := some "/cache", write_only := false }
            : OperationCacheState Nat)
          noCallErrors "f" "args1" "kw" 42).st
        noCallErrors "f" "args1" "kw" 42).executed = false)
    ∧ ((OperationCache.call
        ({ cache_directory := some "/cache", write_only := true,
           files := [((generate_hash_metadata "f" "args1" "kw").1,
             .good (generate_hash_metadata "f" "args1" "kw").2 7)] }
          : OperationCacheState Nat)
        noCallErrors "f" "args1" "kw" 42).executed = true) := by
  have h := cache_idempotence
    ({ cache_directory := some "/cache", write_only := false } : OperationCacheState Nat)
    ({ cache_directory := some "/cache", write_only := true,
       files := [((generate_hash_metadata "f" "args1" "kw").1,
         .good (generate_hash_metadata "f" "args1" "kw").2 7)] })
    "/cache" "/cache" "f" "args1" "kw" 42 42
    rfl rfl (by simp [filesLookup]) rfl rfl
  exact ⟨h.2.1, h.2.2.1⟩

/-- C6 (code evaluation at the failing inputs): on a load error the call
still executes the function and returns its result, but the source resets
`_cached_retrieve_errors` to `0` instead of incrementing it (here `7 ↦ 0`);
on a store error the source resets `_cached_store_errors` to `0` instead of
incrementing it (here `5 ↦ 0`) and fails to remove the faulty cache file —
`shutil.rmtree(cache_file, ignore_errors=True)` on a file path removes
nothing, so the corrupt file is still on disk after the call. -/
theorem cache_error_counters_reset_and_file_kept :
    ((OperationCache.call
        ({ cache_directory := some "/c", write_only := false,
           cached_retrieve_errors := 7,
           files := [((generate_hash_metadata "f" "1" "").1, .corrupt)] }
          : OperationCacheState Nat)
        noCallErrors "f" "1" "" 42).ret = 42
      ∧ (OperationCache.call
        ({ cache_directory := some "/c", write_only := false,
           cached_retrieve_errors := 7,
           files := [((generate_hash_metadata "f" "1" "").1, .corrupt)] }
          : OperationCacheState Nat)
        noCallErrors "f" "1" "" 42).executed = true
      ∧ (OperationCache.call
        ({ cache_directory := some "/c", write_only := false,
           cached_retrieve_errors := 7,
           files := [((generate_hash_metadata "f" "1" "").1, .corrupt)] }
          : OperationCacheState Nat)
        noCallErrors "f" "1" "" 42).st.cached_retrieve_errors = 0)
    ∧ ((OperationCache.call
        ({ cache_directory := some "/c", write_only := false,
           cached_store_errors := 5 } : OperationCacheState Nat)
        { hashFail := false, retrieveFail := false, storeFail := true }
        "f" "1" "" 42).ret = 42
      ∧ (OperationCache.call
        ({ cache_directory := some "/c", write_only := false,
           cached_store_errors := 5 } : OperationCacheState Nat)
        { hashFail := false, retrieveFail := false, storeFail := true }
        "f" "1" "" 42).executed = true
      ∧ (OperationCache.call
        ({ cache_directory := some "/c", write_only := false,
           cached_store_errors := 5 } : OperationCacheState Nat)
        { hashFail := false, retrieveFail := false, storeFail := true }
        "f" "1" "" 42).st.cached_store_errors = 0
      ∧ filesLookup (OperationCache.call
        ({ cache_directory := some "/c", write_only := false,
           cached_store_errors := 5 } : OperationCacheState Nat)
        { hashFail := false, retrieveFail := false, storeFail := true }
        "f" "1" "" 42).st.files (generate_hash_metadata "f" "1" "").1
        = some .corrupt) := by
  exact ⟨⟨rfl, rfl, rfl⟩, rfl, rfl, rfl, by simp [OperationCache.call, callExecuteStore,
    noCallErrors, filesLookup, filesSet, generate_hash_metadata]⟩

/-- Python object state of an `OperationCache` instance as configured by
`__init__`; `instId` models object identity, `initialized` the
`_initialized` flag that guards re-initialization. -/
structure OCInstance where
  instId : Nat
  cache_directory : Option String
  write_only : Bool
  initialized : Bool
deriving DecidableEq, Repr

/-- Module-level class attributes of `OperationCache`: the `_instance`
slot, plus a fresh-id counter modelling Python object allocation. -/
structure OCModuleState where
  inst : Option OCInstance := none
  nextId : Nat := 0
deriving DecidableEq, Repr

/-- Embedding of `OperationCache(cache_directory, write_only)` —
`__new__` followed by `__init__`: with no existing `_instance` a fresh
object is allocated and `__init__` sets its configuration and
`_initialized = True`; otherwise `__new__` returns the existing instance
and `__init__`'s body is skipped because `_initialized` is already true,
so the passed arguments are ignored. -/
def constructOperationCache (m : OCModuleState) (cache_directory : Option String)
    (write_only : Bool) : OCModuleState × OCInstance :=
  match m.inst with
  | none =>
      let i : OCInstance :=
        { instId := m.nextId, cache_directory := cache_directory,
          write_only := write_only, initialized := true }
      ({ inst := some i, nextId := m.nextId + 1 }, i)
  | some i => (m, i)

/-- Embedding of `initialize_cache`: construct the (singleton) cache and
return `cache.cache_directory != cache_directory` (the source computes the
inequality although the variable is named `cache_using_requested_dir`). -/
def initialize_cache (m : OCModuleState) (cache_directory : Option String)
    (write_only : Bool) : OCModuleState × Bool :=
  let r := constructOperationCache m cache_directory write_only
  (r.1, decide (r.2.cache_directory ≠ cache_directory))

/-- C10: `OperationCache` is a module-wide singleton fixed at first
construction — the first construction sets the configuration from its
arguments; once an instance exists, every later construction returns that
same instance unchanged regardless of the arguments, and a later
`initialize_cache` with a different directory leaves the module state (and
hence the effective cache directory) unchanged. -/
theorem operation_cache_singleton (m0 : OCModuleState) (i : OCInstance)
    (d d2 : Option String) (w w2 : Bool) (hm : m0.inst = none) :
    ((constructOperationCache m0 d w).2.cache_directory = d
      ∧ (constructOperationCache m0 d w).2.write_only = w)
    ∧ (∀ m : OCModuleState, m.inst = some i →
        constructOperationCache m d2 w2 = (m, i))
    ∧ (∀ m : OCModuleState, m.inst = some i →
        (initialize_cache m d2 w2).1 = m
        ∧ (initialize_cache m d2 w2).1.inst = some i)
    ∧ ((constructOperationCache (constructOperationCache m0 d w).1 d2 w2).2
        = (constructOperationCache m0 d w).2
      ∧ (constructOperationCache (constructOperationCache m0 d w).1 d2 w2).2.cache_directory
        = d
      ∧ (constructOperationCache (constructOperationCache m0 d w).1 d2 w2).2.write_only
        = w) := by
  refine ⟨?_, ?_, ?_, ?_⟩
  · constructor <;> simp [constructOperationCache, hm]
  · intro m hmi
    simp [constructOperationCache, hmi]
  · intro m hmi
    constructor <;> simp [initialize_cache, constructOperationCache, hmi]
  · refine ⟨?_, ?_, ?_⟩ <;> simp [constructOperationCache, hm]

/-- Witness for C10: a concrete module state where a second construction
with a different directory returns the first instance unchanged. -/
theorem operation_cache_singleton_witness :
    (constructOperationCache
        (constructOperationCache {} (some "/first") false).1 (some "/second") true).2
      = (constructOperationCache {} (some "/first") false).2
    ∧ (constructOperationCache
        (constructOperationCache {} (some "/first") false).1 (some "/second") true).2.cache_directory
      = some "/first" := by
  have h := operation_cache_singleton {}
    (constructOperationCache {} (some "/first") false).2
    (some "/first") (some "/second") false true rfl
  exact ⟨h.2.2.2.1, h.2.2.2.2.1⟩

/-! Embedding of version extraction
(`package/suggesting_repos/version_utils.py`).  Strings are processed as
character lists; ASCII lowering models `str.lower` on archive names. -/

/-- Embedding of `SUPPORTED_ARCHIVE_TYPES` (`common.py`): the extensions of
`shutil.get_unpack_formats()`, which sorts the formats by name
(bztar, gztar, tar, xztar, zip), each contributing its extension list in
order. -/
def SUPPORTED_ARCHIVE_TYPES : List String :=
  [".tar.bz2", ".tbz2", ".tar.gz", ".tgz", ".tar", ".tar.xz", ".txz", ".zip"]

/-- Strip the first matching archive extension (the `for ext ...: if
endswith: ...; break` loop). -/
def stripArchiveExt (name : List Char) : List Char :=
  match SUPPORTED_ARCHIVE_TYPES.find? (fun ext => List.isSuffixOf ext.data name) with
  | some ext => name.take (name.length - ext.length)
  | none => name

/-- Index of the last occurrence of `c` (Python `str.rfind`). -/
def rfindIdx (c : Char) : List Char → Option Nat
  | [] => none
  | x :: xs =>
      match rfindIdx c xs with
      | some i => some (i + 1)
      | none => if x = c then some 0 else none

/-- Decimal value of a digit list. -/
def digitsToNat (l : List Char) : Nat :=
  l.foldl (fun acc c => acc * 10 + (c.toNat - 48)) 0

/-- Gregorian leap year, as `datetime` uses it. -/
def isLeapYear (y : Nat) : Bool :=
  y % 4 = 0 && (y % 100 ≠ 0 || y % 400 = 0)

/-- Days of a month as validated by `datetime(year, month, day)`. -/
def daysInMonth (y m : Nat) : Nat :=
  if m = 2 then (if isLeapYear y then 29 else 28)
  else if m = 4 ∨ m = 6 ∨ m = 9 ∨ m = 11 then 30
  else 31

/-- Embedding of `is_valid_date_format`: exactly eight digits forming a
valid `datetime` date (`MINYEAR = 1`, so year `0` is rejected). -/
def is_valid_date_format (s : List Char) : Bool :=
  s.length = 8 && s.all Char.isDigit
    && (let y := digitsToNat (s.take 4)
        let m := digitsToNat ((s.drop 4).take 2)
        let d := digitsToNat (s.drop 6)
        1 ≤ y && 1 ≤ m && m ≤ 12 && 1 ≤ d && d ≤ daysInMonth y m)

/-- Embedding of `is_commit_hash`: 6–40 characters, all lowercase hex, at
least one of them a letter a–f. -/
def is_commit_hash (s : List Char) : Bool :=
  6 ≤ s.length && s.length ≤ 40
    && s.all (fun c => c ∈ "0123456789abcdef".data)
    && s.any (fun c => c ∈ "abcdef".data)

/-- Embedding of `is_version`: starts with a digit, or with `v`/`r`
followed by a digit. -/
def is_version (s : List Char) : Bool :=
  match s with
  | [] => false
  | c :: rest =>
      c.isDigit
        || ((c = 'v' || c = 'r')
            && (match rest with
                | [] => false
                | c2 :: _ => c2.isDigit))

/-- Raw outcome of the `while True` peeling loop of
`extract_version_from_archive_name`. -/
structure ExtractLoopResult where
  version : List Char
  date : List Char
  sfx : List Char
  isCommit : Bool
deriving DecidableEq, Repr

/-- The `while True` loop of `extract_version_from_archive_name`,
fuel-guarded (each iteration shortens the name or converts an underscore,
so `2 * length + 2` fuel always suffices): peel the segment after the last
dash, classifying it as date, commit hash, version, or free suffix; with
no dash left, rewrite the last underscore to a dash or accept the whole
remaining string as the version. -/
def extractVersionLoop (fuel : Nat) (name date sfx : List Char) :
    Option ExtractLoopResult :=
  match fuel with
  | 0 => none
  | fuel + 1 =>
      match rfindIdx '-' name with
      | none =>
          match rfindIdx '_' name with
          | some i => extractVersionLoop fuel (name.set i '-') date sfx
          | none => some ⟨name, date, sfx, false⟩
      | some i =>
          let pot := name.drop (i + 1)
          if is_valid_date_format pot then
            extractVersionLoop fuel (name.take i) pot sfx
          else if is_commit_hash pot then some ⟨pot, date, sfx, true⟩
          else if is_version pot then some ⟨pot, date, sfx, false⟩
          else extractVersionLoop fuel (name.take i) date pot

/-- Embedding of the regex `(.+?)p(\d+)$`: the lazy group takes the
shortest non-empty prefix, so the match splits at the first index `i ≥ 1`
holding `p` with a non-empty all-digit remainder. -/
def pSplit (v : List Char) : Option (List Char × List Char) :=
  match (List.range v.length).filter (fun i =>
      decide (1 ≤ i) && decide (v.get? i = some 'p') && decide (i + 1 < v.length)
        && (v.drop (i + 1)).all Char.isDigit) with
  | [] => none
  | i :: _ => some (v.take i, v.drop (i + 1))

/-- Embedding of namedtuple `VersionInfo`. -/
structure VersionInfo where
  version : String
  date : String
  suffix : String
  is_commit_hash : Bool
deriving DecidableEq, Repr

/-- Embedding of `extract_version_from_archive_name`: lowercase, strip the
archive extension, run the peeling loop, raise (`none`) on an empty
version, then normalize — drop a leading `v`/`r`, map `.` and `-` to `_`,
and apply the OpenSSH `Np<digits>` corner case, which overwrites the
suffix. -/
def extract_version_from_archive_name (source_archive : String) :
    Option VersionInfo :=
  let name0 := source_archive.data.map Char.toLower
  let name1 := stripArchiveExt name0
  match extractVersionLoop (2 * name1.length + 2) name1 [] [] with
  | none => none
  | some r =>
      if r.version = [] then none
      else
        let v1 := match r.version with
          | c :: rest => if c = 'v' ∨ c = 'r' then rest else r.version
          | [] => r.version
        let v2 := v1.map (fun c => if c = '.' ∨ c = '-' then '_' else c)
        match pSplit v2 with
        | some (core, digits) =>
            some ⟨String.mk core, String.mk r.date, String.mk digits, r.isCommit⟩
        | none =>
            some ⟨String.mk v2, String.mk r.date, String.mk r.sfx, r.isCommit⟩

/-- C4 (code evaluation at the fixture inputs): the extractor reproduces
the `acl` and `openssh` fixtures, but on
`glibc-2.42-21-g7a8f3c6ee4.tar.xz` — where both the spec fixture table and
the repository's own test expect
`VersionInfo(version="7a8f3c6ee4", date="", suffix="", is_commit_hash=True)`
— the code classifies `g7a8f3c6ee4` as a free suffix (the leading `g` of
the git-describe form is not a hex character) and returns
`VersionInfo(version="21", date="", suffix="g7a8f3c6ee4",
is_commit_hash=False)`. -/
theorem version_extraction_fixtures :
    extract_version_from_archive_name "acl-2.3.1.tar.gz"
      = some { version := "2_3_1", date := "", suffix := "", is_commit_hash := false }
    ∧ extract_version_from_archive_name "openssh-8.7p1.tar.gz"
      = some { version := "8_7", date := "", suffix := "1", is_commit_hash := false }
    ∧ extract_version_from_archive_name "glibc-2.42-21-g7a8f3c6ee4.tar.xz"
      = some { version := "21", date := "", suffix := "g7a8f3c6ee4",
               is_commit_hash := false }
    ∧ extract_version_from_archive_name "glibc-2.42-21-g7a8f3c6ee4.tar.xz"
      ≠ some { version := "7a8f3c6ee4", date := "", suffix := "",
               is_commit_hash := true } := by
  refine ⟨?_, ?_, ?_, ?_⟩ <;> decide

/-! Embedding of the strip-URL-fragments transformation
(`package/suggesting_archives/transformation_methods.py`).  `urlparse` /
`urlunparse` are modelled for the relevant shape of input: the scheme is
the lowercased valid scheme token before the first `:`, and rebuilding
with a blank fragment keeps everything after the scheme separator up to
the first `#` verbatim (Python splits the fragment at the first `#`
before any further parsing, and `urlunparse` re-joins netloc, path,
params and query in their original order). -/

/-- Characters allowed in a URL scheme after the leading letter. -/
def isSchemeChar (c : Char) : Bool :=
  c.isAlphanum || c = '+' || c = '-' || c = '.'

/-- Validity of a scheme token (letter first, then scheme characters). -/
def validScheme (pre : List Char) : Bool :=
  match pre with
  | [] => false
  | c :: rest => c.isAlpha && rest.all isSchemeChar

/-- Scheme of a URL as `urlparse().scheme` computes it: the lowercased
token before the first `:` when valid, else the empty string. -/
def urlScheme (s : String) : String :=
  let cs := s.data
  let pre := cs.takeWhile (fun c => c ≠ ':')
  if decide (pre.length < cs.length) && validScheme pre then
    String.mk (pre.map Char.toLower)
  else ""

/-- Result of `urlunparse((o.scheme, o.netloc, o.path, o.params, o.query,
""))` for a URL with a valid scheme: the lowercased scheme, the `:`
separator, and the rest of the URL up to the first `#`. -/
def removeUrlFragment (s : String) : String :=
  let cs := s.data
  let pre := cs.takeWhile (fun c => c ≠ ':')
  String.mk (pre.map Char.toLower ++ ':' :: ((cs.drop (pre.length + 1)).takeWhile (fun c => c ≠ '#')))

/-- Embedding of `os.path.basename`: the part after the last `/`. -/
def pyBasename (s : String) : String :=
  String.mk ((s.data.reverse.takeWhile (fun c => c ≠ '/')).reverse)

/-- Embedding of `LocalArchiveTransformation`
(`package/suggesting_archives/__init__.py`). -/
structure LocalArchiveTransformation where
  name : String
  input_local_archives : List String
  input_spec_sources : List String
  output_local_archives : List String
  output_spec_sources : List String
  notes : String
  confidence : ℚ
deriving DecidableEq, Repr

/-- Condition under which the loop body counts a source as fixed: its
parsed scheme is `https` or `http`. -/
def isHttpSource (src : String) : Bool :=
  urlScheme src == "https" || urlScheme src == "http"

/-- Embedding of `_transform_remove_url_fragment_from_spec_sources`: every
source with scheme `http`/`https` is rebuilt without its fragment and
counted in `fixed_spec_sources_cnt` (whether or not the string changes);
other sources pass through.  With a zero count the function returns
nothing, otherwise a record with the basenamed local archives unchanged
and confidence `1.00`. -/
def transform_remove_url_fragment_from_spec_sources
    (local_archives spec_sources : List String) :
    Option LocalArchiveTransformation :=
  let output_spec_sources := spec_sources.map (fun src =>
    if isHttpSource src then removeUrlFragment src else src)
  let fixed_spec_sources_cnt := spec_sources.countP (fun src => isHttpSource src)
  if fixed_spec_sources_cnt = 0 then none
  else some
    { name := "transform_remove_url_fragment_from_spec_sources"
      input_local_archives := local_archives.map pyBasename
      input_spec_sources := spec_sources
      output_local_archives := local_archives.map pyBasename
      output_spec_sources := output_spec_sources
      notes := "modified " ++ toString fixed_spec_sources_cnt ++ " Sources out of "
        ++ toString spec_sources.length
      confidence := 1 }

/-- Counterexample to C7 as stated: on the single declared source
`http://example.com/a-1.tar.gz`, which has no fragment, no source string
changes, yet the transformation still emits a record (the source counts
every `http`/`https` source as fixed, not every changed string). -/
theorem strip_url_fragment_counterexample :
    (transform_remove_url_fragment_from_spec_sources
        ["/tmp/a-1.tar.gz"] ["http://example.com/a-1.tar.gz"]).isSome = true
    ∧ (transform_remove_url_fragment_from_spec_sources
        ["/tmp/a-1.tar.gz"] ["http://example.com/a-1.tar.gz"]).map
        (fun t => t.output_spec_sources)
      = some ["http://example.com/a-1.tar.gz"] := by
  exact ⟨rfl, rfl⟩

/-- C7 (amended): the transformation emits a record iff at least one
declared source parses with scheme `http` or `https` (regardless of
whether any string changes); an emitted record has confidence `1.0`,
identical input and output local-archive lists (the basenames of the
given archives), and output sources in which exactly the `http`/`https`
sources have their fragment part removed. -/
theorem strip_url_fragment_amended (local_archives spec_sources : List String) :
    ((transform_remove_url_fragment_from_spec_sources
        local_archives spec_sources).isSome = true
      ↔ ∃ src ∈ spec_sources, isHttpSource src = true)
    ∧ ∀ t, transform_remove_url_fragment_from_spec_sources
        local_archives spec_sources = some t →
      t.confidence = 1
      ∧ t.output_local_archives = t.input_local_archives
      ∧ t.input_local_archives = local_archives.map pyBasename
      ∧ t.input_spec_sources = spec_sources
      ∧ t.output_spec_sources = spec_sources.map (fun src =>
          if isHttpSource src then removeUrlFragment src else src) := by
  constructor
  · unfold transform_remove_url_fragment_from_spec_sources
    by_cases hz : spec_sources.countP (fun src => isHttpSource src) = 0
    · rw [if_pos hz]
      simp only [Option.isSome_none]
      constructor
      · intro hfalse
        exact absurd hfalse (by simp)
      · intro ⟨src, hmem, hsrc⟩
        rw [List.countP_eq_zero] at hz
        exact absurd hsrc (by simpa using hz src hmem)
    · rw [if_neg hz]
      simp only [Option.isSome_some, true_iff]
      rcases List.countP_pos_iff.mp (Nat.pos_of_ne_zero hz) with ⟨src, hmem, hsrc⟩
      exact ⟨src, hmem, hsrc⟩
  · intro t ht
    unfold transform_remove_url_fragment_from_spec_sources at ht
    by_cases hz : spec_sources.countP (fun src => isHttpSource src) = 0
    · rw [if_pos hz] at ht
      exact absurd ht (by simp)
    · rw [if_neg hz] at ht
      have := Option.some.inj ht
      rw [← this]
      exact ⟨rfl, rfl, rfl, rfl, rfl⟩

/-- Witness for C7's amended theorem: one fragment-carrying source. -/
theorem strip_url_fragment_amended_witness :
    (transform_remove_url_fragment_from_spec_sources
        ["/tmp/archive-0.1.tar.gz"]
        ["http://example.com/archive-0.1.tar.gz#/archive-0.1.tar.gz"]).isSome = true := by
  have h := strip_url_fragment_amended
    ["/tmp/archive-0.1.tar.gz"]
    ["http://example.com/archive-0.1.tar.gz#/archive-0.1.tar.gz"]
  exact h.1.mpr ⟨"http://example.com/archive-0.1.tar.gz#/archive-0.1.tar.gz",
    by simp, by decide⟩

/-! Embedding of `RPMSpec.package_version` (`package/rpm/spec.py`) and
`lines_starting_with` (`utils.py`).  Python's string sort is code-point
lexicographic; it is embedded as `pyStrLt` on character lists. -/

/-- Embedding of `str.startswith` on character lists. -/
def startswith : List Char → List Char → Bool
  | _, [] => true
  | [], _ :: _ => false
  | c :: cs, p :: ps => c = p && startswith cs ps

/-- Embedding of `lines_starting_with`: the lines beginning with the
pattern, in order. -/
def lines_starting_with (lines : List String) (pat : String) : List String :=
  lines.filter (fun line => startswith line.data pat.data)

/-- Python string `<`: code-point lexicographic comparison. -/
def pyStrLt (a b : List Char) : Bool :=
  match a, b with
  | [], [] => false
  | [], _ :: _ => true
  | _ :: _, [] => false
  | c :: cs, d :: ds =>
      if c.toNat < d.toNat then true
      else if d.toNat < c.toNat then false
      else pyStrLt cs ds

lemma pyStrLt_trans {a b c : List Char} (h1 : pyStrLt a b = true)
    (h2 : pyStrLt b c = true) : pyStrLt a c = true := by
  induction a generalizing b c with
  | nil =>
      cases b with
      | nil => simp [pyStrLt] at h1
      | cons y ys =>
          cases c with
          | nil => simp [pyStrLt] at h2
          | cons z zs => simp [pyStrLt]
  | cons x xs ih =>
      cases b with
      | nil => simp [pyStrLt] at h1
      | cons y ys =>
          cases c with
          | nil => simp [pyStrLt] at h2
          | cons z zs =>
              simp only [pyStrLt] at h1 h2 ⊢
              by_cases hxy : x.toNat < y.toNat
              · by_cases hyz : y.toNat < z.toNat
                · rw [if_pos (by omega)]
                · rw [if_neg hyz] at h2
                  by_cases hzy : z.toNat < y.toNat
                  · rw [if_pos hzy] at h2
                    exact absurd h2 (by simp)
                  · rw [if_pos (by omega)]
              · rw [if_neg hxy] at h1
                by_cases hyx : y.toNat < x.toNat
                · rw [if_pos hyx] at h1
                  exact absurd h1 (by simp)
                · rw [if_neg hyx] at h1
                  by_cases hyz : y.toNat < z.toNat
                  · rw [if_pos (by omega)]
                  · rw [if_neg hyz] at h2
                    by_cases hzy : z.toNat < y.toNat
                    · rw [if_pos hzy] at h2
                      exact absurd h2 (by simp)
                    · rw [if_neg hzy] at h2
                      rw [if_neg (by omega), if_neg (by omega)]
                      exact ih h1 h2

lemma char_toNat_inj {c d : Char} (h : c.toNat = d.toNat) : c = d :=
  Char.ext (UInt32.ext h)

lemma pyStrLt_not_lt {a b : List Char} (h : pyStrLt a b = false) :
    pyStrLt b a = true ∨ a = b := by
  induction a generalizing b with
  | nil =>
      cases b with
      | nil => exact Or.inr rfl
      | cons y ys => simp [pyStrLt] at h
  | cons x xs ih =>
      cases b with
      | nil => exact Or.inl (by simp [pyStrLt])
      | cons y ys =>
          simp only [pyStrLt] at h ⊢
          by_cases hxy : x.toNat < y.toNat
          · rw [if_pos hxy] at h
            exact absurd h (by simp)
          · rw [if_neg hxy] at h
            by_cases hyx : y.toNat < x.toNat
            · exact Or.inl (by rw [if_pos hyx])
            · rw [if_neg hyx] at h
              rcases ih h with h2 | h2
              · exact Or.inl (by rw [if_neg hyx, if_neg hxy]; exact h2)
              · exact Or.inr (by rw [char_toNat_inj (by omega : x.toNat = y.toNat), h2])

/-- Head of Python `sorted(l)`: the least element under the code-point
order (the first among equal least elements, which for strings is the
same string). -/
def sortedHead (l : List String) : Option String :=
  match l with
  | [] => none
  | x :: xs => some (xs.foldl (fun m y => if pyStrLt y.data m.data then y else m) x)

/-- Python whitespace stripped by `str.strip()`. -/
def isPyWhitespace (c : Char) : Bool :=
  c = ' ' || c = '\t' || c = '\n' || c = '\r' || c = '\x0b' || c = '\x0c'

/-- Embedding of `str.strip()`. -/
def pyStrip (s : List Char) : List Char :=
  ((s.dropWhile isPyWhitespace).reverse.dropWhile isPyWhitespace).reverse

/-- Embedding of `":".join(line.split(":")[1:])`: everything after the
first `:` (empty when there is no colon). -/
def afterFirstColon (s : List Char) : List Char :=
  let pre := s.takeWhile (fun c => c ≠ ':')
  if pre.length = s.length then [] else s.drop (pre.length + 1)

/-- Value extracted from one `Version:` line:
`":".join(line.split(":")[1:]).strip()`. -/
def versionLineValue (line : String) : String :=
  String.mk (pyStrip (afterFirstColon line.data))

/-- Embedding of `RPMSpec.package_version` on the parsed spec content
lines: collect the `Version:` lines; none raises `RPMSpecError` (`none`);
otherwise extract the value of `sorted(version_lines)[0]` and warn
(second component `true`) when the number of version lines is not one. -/
def package_version (spec_content_lines : List String) : Option (String × Bool) :=
  let version_lines := lines_starting_with spec_content_lines "Version:"
  match sortedHead version_lines with
  | none => none
  | some line => some (versionLineValue line, decide (version_lines.length ≠ 1))

lemma pyStrLt_irrefl (a : List Char) : pyStrLt a a = false := by
  induction a with
  | nil => rfl
  | cons c cs ih =>
      simp only [pyStrLt]
      rw [if_neg (by omega), if_neg (by omega)]
      exact ih

lemma sortedHead_foldl_spec (x : String) (xs : List String) :
    (xs.foldl (fun m y => if pyStrLt y.data m.data then y else m) x) ∈ x :: xs
    ∧ ∀ y ∈ x :: xs,
        pyStrLt y.data (xs.foldl (fun m y => if pyStrLt y.data m.data then y else m) x).data
          = false := by
  induction xs generalizing x with
  | nil =>
      refine ⟨List.mem_singleton_self x, ?_⟩
      intro y hy
      rw [List.mem_singleton.mp hy]
      exact pyStrLt_irrefl x.data
  | cons z zs ih =>
      rw [List.foldl_cons]
      by_cases hzx : pyStrLt z.data x.data = true
      · rw [if_pos hzx]
        rcases ih z with ⟨hmem, hle⟩
        refine ⟨List.mem_cons_of_mem x hmem, ?_⟩
        intro y hy
        rcases List.mem_cons.mp hy with h | h
        · subst h
          have hzr := hle z (List.mem_cons_self z zs)
          cases hyr : pyStrLt y.data
              (zs.foldl (fun m y => if pyStrLt y.data m.data then y else m) z).data with
          | false => rfl
          | true =>
              exfalso
              rcases pyStrLt_not_lt hzr with h2 | h2
              · have hyz := pyStrLt_trans hyr h2
                have := pyStrLt_trans hzx hyz
                rw [pyStrLt_irrefl] at this
                exact absurd this (by simp)
              · rw [← h2] at hyr
                have := pyStrLt_trans hzx hyr
                rw [pyStrLt_irrefl] at this
                exact absurd this (by simp)
        · exact hle y h
      · rw [if_neg hzx]
        rcases ih x with ⟨hmem, hle⟩
        constructor
        · rcases List.mem_cons.mp hmem with h | h
          · rw [h]
            exact List.mem_cons_self x (z :: zs)
          · exact List.mem_cons_of_mem x (List.mem_cons_of_mem z h)
        · intro y hy
          rcases List.mem_cons.mp hy with h | h
          · subst h
            exact hle y (List.mem_cons_self y zs)
          · rcases List.mem_cons.mp h with h2 | h2
            · subst h2
              have hxr := hle x (List.mem_cons_self x zs)
              cases hyr : pyStrLt y.data
                  (zs.foldl (fun m y => if pyStrLt y.data m.data then y else m) x).data with
              | false => rfl
              | true =>
                  exfalso
                  rcases pyStrLt_not_lt hxr with h3 | h3
                  · have := pyStrLt_trans hyr h3
                    rw [this] at hzx
                    exact hzx rfl
                  · rw [← h3] at hyr
                    rw [hyr] at hzx
                    exact hzx rfl
            · exact hle y (List.mem_cons_of_mem x h2)

/-- Counterexample to C8 as stated: on the parsed lines
`["Version:10.0", "Version: 2.0"]` the declared version strings are
`10.0` and `2.0`, whose lexicographically smallest element is `10.0`,
yet the code sorts the *lines* — and `"Version: 2.0"` precedes
`"Version:10.0"` because the space after the colon precedes `'1'` — and
so returns `2.0` (with the multiple-lines warning). -/
theorem version_lex_smallest_counterexample :
    package_version ["Version:10.0", "Version: 2.0"] = some ("2.0", true)
    ∧ pyStrLt "10.0".data "2.0".data = true := by
  exact ⟨rfl, rfl⟩

/-- C8 (amended): with no `Version:` line the parse raises; otherwise the
returned version is the trimmed after-colon value of the lexicographically
smallest `Version:` *line* (when every version line formats the gap after
the colon identically this is the smallest declared version string), a
warning is recorded iff there are several version lines, and with exactly
one line its trimmed value is returned without warning. -/
theorem version_from_smallest_line (spec_content_lines : List String) :
    (lines_starting_with spec_content_lines "Version:" = [] →
      package_version spec_content_lines = none)
    ∧ (∀ p, package_version spec_content_lines = some p →
        (∃ line ∈ lines_starting_with spec_content_lines "Version:",
          p.1 = versionLineValue line
          ∧ ∀ l2 ∈ lines_starting_with spec_content_lines "Version:",
              pyStrLt l2.data line.data = false)
        ∧ (p.2 = true ↔ (lines_starting_with spec_content_lines "Version:").length ≠ 1))
    ∧ (∀ line, lines_starting_with spec_content_lines "Version:" = [line] →
        package_version spec_content_lines = some (versionLineValue line, false)) := by
  refine ⟨?_, ?_, ?_⟩
  · intro hnil
    unfold package_version
    rw [hnil]
    rfl
  · intro p hp
    unfold package_version at hp
    cases hl : lines_starting_with spec_content_lines "Version:" with
    | nil =>
        rw [hl] at hp
        exact absurd hp (by simp [sortedHead])
    | cons x xs =>
        rw [hl] at hp
        simp only [sortedHead] at hp
        have hp2 := (Option.some.inj hp).symm
        subst hp2
        rcases sortedHead_foldl_spec x xs with ⟨hmem, hle⟩
        refine ⟨⟨_, hl ▸ hmem, rfl, ?_⟩, ?_⟩
        · intro l2 hl2
          exact hle l2 (hl ▸ hl2)
        · simp [hl]
  · intro line hline
    unfold package_version
    rw [hline]
    rfl

/-- Witness for C8's amended theorem: a single `Version:` line returns
its trimmed value without warning. -/
theorem version_from_smallest_line_witness :
    package_version ["Name: acl", "Version: 2.3.1", "Release: 1"]
      = some ("2.3.1", false) := by
  have h := version_from_smallest_line ["Name: acl", "Version: 2.3.1", "Release: 1"]
  exact h.2.2 "Version: 2.3.1" rfl

end PVT
